import Mathlib

/-!
Verification development for `trainingdata-tool` (src/src/trainingdata-tool.cpp),
a converter from annotated PGN chess games to lc0 V4 training records.

The source is shallowly embedded:
* `extract_fishtest_comment_score` — the comment-score extractor built on the two
  regexes `{(-?\d+\.\d+)/` and `{#(-?\d+)/` (lines 42-55), modelled as an
  executable leftmost-position matcher over `List Char`; for these patterns the
  greedy digit classes are deterministic (each `\d+` is followed by a character
  that is not a digit), so maximal munch is exact.
* `convert_sf_score_to_win_probability` (lines 57-59) over `ℝ` (the `float`
  arithmetic of the source is idealised as real arithmetic).
* `poly_move_to_lc0_move` (lines 61-89) over an explicit move representation.
* `get_v4_training_data` (lines 91-150); the probability array is modelled at
  the bit-pattern level so that the `memset` byte-fill semantics are exact.
* `write_one_game_training_data` (lines 152-295) and the game loop of `main`
  (lines 322-333) as a state-passing fold; external collaborators (PGN reader,
  legal-move generator, board encoder) are inputs of the per-move record.

Scores parsed by `std::stof` are modelled as exact rationals.
-/

namespace TrainingdataTool

/-! ## ScoreExtractor (`extract_fishtest_comment_score`, lines 42-55) -/

/-- Digit value of a decimal digit list, most significant first: models the
integer part reading done by `std::stof` on the captured group. -/
def digitsToNat (l : List Char) : Nat :=
  l.foldl (fun n c => 10 * n + (c.toNat - '0'.toNat)) 0

/-- The value `std::stof` produces on the captured text `[-]ds.fs`, as an exact
rational. -/
def p1val (neg : Bool) (ds fs : List Char) : ℚ :=
  let v : ℚ := (digitsToNat ds : ℚ) + (digitsToNat fs : ℚ) / (10 : ℚ) ^ fs.length
  if neg then -v else v

/-- Consume the optional leading minus of `-?` as the regex engine does. -/
def parseSign (l : List Char) : Bool × List Char :=
  if l.head? = some '-' then (true, l.tail) else (false, l)

/-- Tail of the first regex after the dot: `\d+/`.  Carries the already
captured sign and integer digits through. -/
def matchFrac (neg : Bool) (ds r3 : List Char) :
    Option (Bool × List Char × List Char) :=
  let fs := r3.takeWhile Char.isDigit
  let r4 := r3.dropWhile Char.isDigit
  if fs ≠ [] ∧ r4.head? = some '/' then some (neg, ds, fs) else none

/-- Middle of the first regex after the sign: `\d+\.` then `matchFrac`. -/
def matchDigitsDot (neg : Bool) (r1 : List Char) :
    Option (Bool × List Char × List Char) :=
  let ds := r1.takeWhile Char.isDigit
  let r2 := r1.dropWhile Char.isDigit
  if ds ≠ [] ∧ r2.head? = some '.' then matchFrac neg ds r2.tail else none

/-- Attempt to match the first regex `{(-?\d+\.\d+)/` at the head of `s`,
returning the sign and the two digit runs of the captured group. -/
def matchP1At (s : List Char) : Option (Bool × List Char × List Char) :=
  if s.head? = some '{' then
    matchDigitsDot (parseSign s.tail).1 (parseSign s.tail).2
  else none

/-- Tail of the second regex: `-?\d+/` after `{#`, returning the sign and the
digit run of the captured group. -/
def matchP2Digits (neg : Bool) (r1 : List Char) : Option (Bool × List Char) :=
  let ds := r1.takeWhile Char.isDigit
  let r2 := r1.dropWhile Char.isDigit
  if ds ≠ [] ∧ r2.head? = some '/' then some (neg, ds) else none

/-- Attempt to match the second regex `{#(-?\d+)/` at the head of `s`. -/
def matchP2At (s : List Char) : Option (Bool × List Char) :=
  if s.head? = some '{' ∧ s.tail.head? = some '#' then
    matchP2Digits (parseSign s.tail.tail).1 (parseSign s.tail.tail).2
  else none

/-- `std::regex_search`: try the pattern at every position, left to right. -/
def searchFirst {α : Type} (f : List Char → Option α) : List Char → Option α
  | [] => f []
  | c :: cs =>
    match f (c :: cs) with
    | some r => some r
    | none => searchFirst f cs

/-- Lines 42-55.  `bool extract_fishtest_comment_score(const char* comment,
float& Q)`: search the first regex; on success `Q = stof(group 1)`.  Otherwise
search the mate regex; on success `Q = group.front() = '-' ? -128 : 128`.
Otherwise report no evaluation (`none` models the `return false` path,
`some q` models `return true` with `Q = q`). -/
def extract_fishtest_comment_score (s : List Char) : Option ℚ :=
  match searchFirst matchP1At s with
  | some (neg, ds, fs) => some (p1val neg ds fs)
  | none =>
    match searchFirst matchP2At s with
    | some (neg, _) => some (if neg then (-128 : ℚ) else 128)
    | none => none

/-! Declarative shapes of the two regexes, used to state claim C5. -/

/-- The characters contributed by the optional sign `-?`. -/
def signChars (neg : Bool) : List Char := if neg then ['-'] else []

/-- The first regex `{(-?\d+\.\d+)/` matches at the head of `s` with captured
sign `neg`, integer digits `ds` and fraction digits `fs`. -/
def atHeadP1 (s : List Char) (neg : Bool) (ds fs : List Char) : Prop :=
  ∃ rest, s = '{' :: (signChars neg ++ ds ++ '.' :: (fs ++ '/' :: rest))
    ∧ ds ≠ [] ∧ (∀ c ∈ ds, c.isDigit = true)
    ∧ fs ≠ [] ∧ (∀ c ∈ fs, c.isDigit = true)

/-- The first regex matches somewhere inside `s`. -/
def occursP1 (s : List Char) (neg : Bool) (ds fs : List Char) : Prop :=
  ∃ pre suf, s = pre ++ suf ∧ atHeadP1 suf neg ds fs

/-- `s` contains a decimal score directly following the opening marker. -/
def strHasP1 (s : List Char) : Prop := ∃ neg ds fs, occursP1 s neg ds fs

/-- The mate regex `{#(-?\d+)/` matches at the head of `s`. -/
def atHeadP2 (s : List Char) (neg : Bool) (ds : List Char) : Prop :=
  ∃ rest, s = '{' :: '#' :: (signChars neg ++ ds ++ '/' :: rest)
    ∧ ds ≠ [] ∧ (∀ c ∈ ds, c.isDigit = true)

/-- The mate regex matches somewhere inside `s`. -/
def occursP2 (s : List Char) (neg : Bool) (ds : List Char) : Prop :=
  ∃ pre suf, s = pre ++ suf ∧ atHeadP2 suf neg ds

/-- `s` contains a mate-distance marker. -/
def strHasP2 (s : List Char) : Prop := ∃ neg ds, occursP2 s neg ds

/-! ## OutcomeConverter (`convert_sf_score_to_win_probability`, lines 57-59) -/

/-- Lines 57-59: `return 2 / (1 + exp(-0.4 * score)) - 1;`, with the `float`
arithmetic idealised over `ℝ`. -/
noncomputable def convert_sf_score_to_win_probability (score : ℝ) : ℝ :=
  2 / (1 + Real.exp (-0.4 * score)) - 1

/-! ## MoveTranslator (`poly_move_to_lc0_move`, lines 61-89) -/

/-- `lczero::Move::Promotion`. -/
inductive Promotion where
  | nopromo
  | knight
  | bishop
  | rook
  | queen
deriving DecidableEq

/-- The 5-entry `lookup` array of line 69 indexed by `move >> 12`; the index is
in range for every legal polyglot move, out-of-range access is mapped to the
default entry. -/
def promoLookup (code : Nat) : Promotion :=
  [Promotion.nopromo, Promotion.knight, Promotion.bishop,
   Promotion.rook, Promotion.queen].getD code Promotion.nopromo

/-- A polyglot `move_t` together with the predicates the source queries on it:
`square_rank`/`square_file` of `move_from`/`move_to`, `move_is_promote` with the
promotion code `move >> 12`, and `move_is_castle`. -/
structure PolyMove where
  fromRank : Nat
  fromFile : Nat
  toRank : Nat
  toFile : Nat
  isPromote : Bool
  promoCode : Nat
  isCastle : Bool
deriving DecidableEq

/-- An `lczero::Move`: from/to squares as rank-file pairs plus the promotion
and the castling flag. -/
structure LMove where
  fromRank : Nat
  fromFile : Nat
  toRank : Nat
  toFile : Nat
  promo : Promotion
  castling : Bool
deriving DecidableEq

/-- Modelled from the spec: `lczero::Move::Mirror` mirrors the move vertically,
i.e. flips the rank of both squares on the 8-rank board. -/
def mirrorMove (m : LMove) : LMove :=
  { m with fromRank := 7 - m.fromRank, toRank := 7 - m.toRank }

/-- Lines 61-89.  Build the lc0 move from the polyglot move: copy the squares;
for a promotion set the promotion piece through `promoLookup`; otherwise, for a
castling move, normalise the destination file to 6 (short, `from.file <
to.file`) or 2 (long) and set the castling flag; finally mirror the whole move
when the side to move is black. -/
def poly_move_to_lc0_move (m : PolyMove) (blackTurn : Bool) : LMove :=
  let base : LMove :=
    ⟨m.fromRank, m.fromFile, m.toRank, m.toFile, Promotion.nopromo, false⟩
  let base :=
    if m.isPromote then
      { base with promo := promoLookup m.promoCode }
    else if m.isCastle then
      let isShortCastle := m.fromFile < m.toFile
      { base with toFile := if isShortCastle then 6 else 2, castling := true }
    else base
  if blackTurn then mirrorMove base else base

/-- Modelled from the spec: `lczero::Move::operator==` compares the squares and
the promotion of the two moves but not the castling flag (the source therefore
conjoins a separate `legal.castling() == lc0_move.castling()` test, line 260). -/
def moveEqNC (a b : LMove) : Bool :=
  decide (a.fromRank = b.fromRank ∧ a.fromFile = b.fromFile ∧
    a.toRank = b.toRank ∧ a.toFile = b.toFile ∧ a.promo = b.promo)

/-! ## TrainingRecordAssembler (`get_v4_training_data`, lines 91-150) -/

/-- Lines 35-40, `resever_bits_in_bytes`: reverse the bit order inside each
byte of a 64-bit mask by three masked swap steps.  Each masked operand has the
shifted-out bits cleared, so the `uint64_t` arithmetic never overflows and the
`Nat` translation is exact for inputs below `2 ^ 64`. -/
def resever_bits_in_bytes (v : Nat) : Nat :=
  let v1 := ((v >>> 1) &&& 0x5555555555555555) ||| ((v &&& 0x5555555555555555) <<< 1)
  let v2 := ((v1 >>> 2) &&& 0x3333333333333333) ||| ((v1 &&& 0x3333333333333333) <<< 2)
  ((v2 >>> 4) &&& 0x0F0F0F0F0F0F0F0F) ||| ((v2 &&& 0x0F0F0F0F0F0F0F0F) <<< 4)

/-- Bit pattern of the IEEE-754 single-precision float `1.0f`. -/
def bitsFloatOne : Nat := 0x3F800000

/-- Bit pattern of the IEEE-754 single-precision float `0.0f` (`= 0`). -/
def bitsFloatZero : Nat := 0

/-- Bit pattern of the IEEE-754 single-precision float `-1.0f`. -/
def bitsFloatNegOne : Nat := 0xBF800000

/-- The 32-bit pattern `std::memset(result.probabilities, -1.0f, ...)` (line
100) actually stores in every float cell: the second argument of `memset` is
converted `float → int → unsigned char`, `(int)(-1.0f) = -1`, truncated to the
byte `0xFF`, so each 4-byte cell is filled with `0xFFFFFFFF`. -/
def memsetFF32 : Nat := 0xFFFFFFFF

/-- A 32-bit pattern denotes an IEEE-754 single NaN when the exponent field is
all ones and the mantissa is nonzero. -/
def isNaN32 (b : Nat) : Prop := (b >>> 23) % 256 = 255 ∧ b % 2 ^ 23 ≠ 0

/-- `lczero::GameResult` as classified from `pgn->result` (lines 190-196). -/
inductive GameResult where
  | whiteWon
  | blackWon
  | draw
deriving DecidableEq

/-- The fields of `lczero::Position` that `get_v4_training_data` reads from
`history.Last()` (an external collaborator, given here as an input). -/
structure Position where
  isBlackToMove : Bool
  canCastleWeOOO : Bool
  canCastleWeOO : Bool
  canCastleTheyOOO : Bool
  canCastleTheyOO : Bool
  noCaptureNoPawnPly : Nat

/-- `lczero::V4TrainingData` with the probability array as a map from nn index
to 32-bit float pattern; `root_q`/`best_q` and `root_d`/`best_d` idealised as
rationals. -/
structure V4TrainingData where
  version : Nat
  probabilities : Nat → Nat
  planes : List Nat
  castling_us_ooo : Nat
  castling_us_oo : Nat
  castling_them_ooo : Nat
  castling_them_oo : Nat
  side_to_move : Nat
  move_count : Nat
  rule50_count : Nat
  result : Int
  root_q : ℚ
  best_q : ℚ
  root_d : ℚ
  best_d : ℚ

/-- Lines 91-150, `get_v4_training_data`.  The probability array is first
byte-filled by `memset` (pattern `memsetFF32` per cell), then every legal move's
`as_nn_index` cell is set to `0.0f`, then the played move's cell to `1.0f`.
`as_nn_index` is external; it is passed in as `nnIndex`.  Planes come from the
external encoder as raw masks and are stored bit-reversed within bytes.  The
game result is mapped to the perspective of the side to move of `history.Last()`
and the draw-confidence fields are set accordingly; `root_q`/`best_q` is the
incoming `Q`, negated for black to move. -/
def get_v4_training_data (nnIndex : LMove → Nat) (game_result : GameResult)
    (pos : Position) (planeMasks : List Nat) (played_move : LMove)
    (legal_moves : List LMove) (q : ℚ) : V4TrainingData where
  version := 4
  probabilities :=
    Function.update
      (legal_moves.foldl (fun p mv => Function.update p (nnIndex mv) bitsFloatZero)
        (fun _ => memsetFF32))
      (nnIndex played_move) bitsFloatOne
  planes := planeMasks.map resever_bits_in_bytes
  castling_us_ooo := if pos.canCastleWeOOO then 1 else 0
  castling_us_oo := if pos.canCastleWeOO then 1 else 0
  castling_them_ooo := if pos.canCastleTheyOOO then 1 else 0
  castling_them_oo := if pos.canCastleTheyOO then 1 else 0
  side_to_move := if pos.isBlackToMove then 1 else 0
  move_count := 0
  rule50_count := pos.noCaptureNoPawnPly
  result :=
    match game_result with
    | GameResult.whiteWon => if pos.isBlackToMove then -1 else 1
    | GameResult.blackWon => if pos.isBlackToMove then 1 else -1
    | GameResult.draw => 0
  root_q := if pos.isBlackToMove then -q else q
  best_q := if pos.isBlackToMove then -q else q
  root_d := match game_result with
    | GameResult.draw => 1
    | _ => 0
  best_d := match game_result with
    | GameResult.draw => 1
    | _ => 0

/-- Spec-side predicate of claim C8: the final result favors the side currently
to move in the stored position. -/
def favorsSideToMove (gr : GameResult) (blackToMove : Bool) : Bool :=
  match gr with
  | GameResult.whiteWon => !blackToMove
  | GameResult.blackWon => blackToMove
  | GameResult.draw => false

/-! ## GameProcessor (`write_one_game_training_data`, lines 152-295, and the
game loop of `main`, lines 322-333)

One iteration of the `while (pgn_next_move ...)` loop consumes one parsed move
token.  The external collaborators (PGN reader, `move_from_san` +
`move_is_legal`, `move_is_mate`, `GenerateLegalMoves`) are inputs bundled per
move in `MoveRec`; the loop-relevant board state (whose turn it is, which
toggles on `position_history.Append`/`move_do`) is threaded through `GameSt`. -/

/-- The data one iteration of the move loop reads for the current move token:
whether `move_from_san` succeeded and `move_is_legal` held, the NAG string
(`pgn->last_read_nag`), the comment (`pgn->last_read_comment`, empty list for
no comment), the `move_is_mate` verdict, the polyglot move, and the
`GenerateLegalMoves()` output for the current position (already in lc0 form). -/
structure MoveRec where
  legal : Bool
  nag : List Char
  comment : List Char
  isMate : Bool
  mv : PolyMove
  legalMoves : List LMove
deriving DecidableEq

/-- Lines 216-225: the move is filtered out when the first NAG character is
`2`, `4`, `5` or `6` (poor / very poor / dubious / forced). -/
def isBadNag (nag : List Char) : Bool :=
  match nag.head? with
  | some c => decide (c = '2' ∨ c = '4' ∨ c = '5' ∨ c = '6')
  | none => false

/-- Digest of one `WriteChunk` call: the lc0 move the record was built from and
the raw evaluation `fishtest_score` whose conversion
`convert_sf_score_to_win_probability` is the record's `Q` (`0` on the
no-comment path, where the source leaves `Q = 0.0f`).  The full record content
is `get_v4_training_data` applied to these and the position inputs. -/
structure TrainRec where
  mv : LMove
  eval : ℚ
deriving DecidableEq

/-- State of the move loop of `write_one_game_training_data`: the side to move
of the current position, the writer (`none` models the null pointer, `some p`
a writer opened on directory partition `p`), the local `game_id` copy, the
records written so far, the count of `Move not found` diagnostics, whether the
null writer was dereferenced (undefined behaviour, modelled as a crash that
freezes the state), and whether the loop was left by `break`. -/
structure GameSt where
  black : Bool
  writer : Option Nat
  gameId : Nat
  records : List TrainRec
  notFound : Nat
  crashed : Bool
  stopped : Bool
deriving DecidableEq

/-- Loop state on entry (lines 177-196): fresh position, null writer, the
`game_id` argument, nothing written. -/
def initSt (gameId : Nat) (blackFirst : Bool) : GameSt :=
  ⟨blackFirst, none, gameId, [], 0, false, false⟩

/-- Lines 227-252, the comment section of one iteration: with a nonempty
comment, a mating move bypasses parsing (`fishtest_score` is `-128` for black
to move, else `128`), any other move extracts the score from the comment and
`break`s (`none`) when extraction fails; on success the writer is created if
null, on partition `game_id / max_games_per_directory`, and the local
`game_id` is incremented.  With no comment, fishtest mode `break`s, otherwise
the iteration continues with `Q = 0` and the writer untouched. -/
def commentStep (fishtest : Bool) (cap : Nat) (st : GameSt) (m : MoveRec) :
    Option (ℚ × Option Nat × Nat) :=
  if m.comment ≠ [] then
    let fscore : Option ℚ :=
      if m.isMate then some (if st.black then (-128 : ℚ) else 128)
      else extract_fishtest_comment_score m.comment
    match fscore with
    | none => none
    | some v =>
      if st.writer.isNone then some (v, some (st.gameId / cap), st.gameId + 1)
      else some (v, st.writer, st.gameId)
  else if fishtest then none
  else some (0, st.writer, st.gameId)

/-- Lines 254-280, the tail of one iteration: translate the move, search the
legal-move list for a move equal to it whose castling flag also matches,
count the `Move not found` diagnostic when absent, then — unless the move is
NAG-filtered — build the record and `writer->WriteChunk` it (dereferencing a
null writer when none was ever created), and finally apply the move, which
passes the turn. -/
def emitStep (st : GameSt) (m : MoveRec) (v : ℚ) (w : Option Nat) (gid : Nat) :
    GameSt :=
  let lc0 := poly_move_to_lc0_move m.mv st.black
  let found := m.legalMoves.any fun l => moveEqNC l lc0 && (l.castling == lc0.castling)
  let nf := if found then st.notFound else st.notFound + 1
  if isBadNag m.nag then
    { st with writer := w, gameId := gid, notFound := nf, black := !st.black }
  else
    match w with
    | none => { st with writer := w, gameId := gid, notFound := nf, crashed := true }
    | some _ =>
      { st with
        writer := w
        gameId := gid
        notFound := nf
        records := st.records ++ [⟨lc0, v⟩]
        black := !st.black }

/-- One iteration of the move loop (lines 198-280).  A crashed or broken loop
ignores further tokens (the source is already out of the loop; the remaining
tokens are the fast-forward of lines 286-288).  An illegal or unparseable move
token prints and `break`s. -/
def process_one_move (fishtest : Bool) (cap : Nat) (st : GameSt) (m : MoveRec) :
    GameSt :=
  if st.crashed || st.stopped then st
  else if !m.legal then { st with stopped := true }
  else
    match commentStep fishtest cap st m with
    | none => { st with stopped := true }
    | some (v, w, gid) => emitStep st m v w gid

/-- Lines 152-295, `write_one_game_training_data` for one game: fold the move
loop over the game's move tokens from the initial state.  The C++ return value
(the writer pointer as a boolean) is `(·.writer.isSome)` of the result. -/
def write_one_game_training_data (fishtest : Bool) (cap : Nat) (gameId : Nat)
    (blackFirst : Bool) (moves : List MoveRec) : GameSt :=
  moves.foldl (process_one_move fishtest cap) (initSt gameId blackFirst)

/-- One game of the input stream: the side to move of its starting position
and its move tokens. -/
structure Game where
  blackFirst : Bool
  moves : List MoveRec

/-- Lines 329-332, the game loop of `main`: process games in order while
`game_id < max_games_to_convert`; a game whose `write_one_game_training_data`
returned a non-null writer increments `game_id`.  The result collects, in
order, the directory partition index each created writer was opened on; a
crashed game terminates the process. -/
def main_partitions (fishtest : Bool) (cap maxGames : Nat) :
    List Game → Nat → List Nat
  | [], _ => []
  | g :: gs, gameId =>
    if maxGames ≤ gameId then []
    else
      let st := write_one_game_training_data fishtest cap gameId g.blackFirst g.moves
      let here := match st.writer with
        | some p => [p]
        | none => []
      if st.crashed then here
      else here ++
        main_partitions fishtest cap maxGames gs
          (if st.writer.isSome then gameId + 1 else gameId)

/-! ## Shared concrete inputs used by the per-claim evaluations -/

/-- A plain pawn push used where the concrete move content is irrelevant. -/
def pmPlain : PolyMove := ⟨6, 4, 4, 4, false, 0, false⟩

/-- A legal move record with the given comment, NAG and mate flag, and an
empty legal-move list. -/
def mkMove (c nag : List Char) (mate : Bool) : MoveRec :=
  ⟨true, nag, c, mate, pmPlain, []⟩

/-- A parseable fishtest comment, `"{1.0/"`. -/
def cmtOne : List Char := ['{', '1', '.', '0', '/']

/-- Invariant of the move loop: the writer is still null with the local game
id at its entry value `c`, or it was created on partition `c / cap` and the
local id was bumped once. -/
def WInv (cap c : Nat) (st : GameSt) : Prop :=
  (st.writer = none ∧ st.gameId = c) ∨ (st.writer = some (c / cap) ∧ st.gameId = c + 1)

/-! ## Helper lemmas about the move loop -/

/-- The comment section leaves the writer and the local game id unchanged, or
creates the writer on partition `gameId / cap` and increments the id. -/
theorem commentStep_writer (ft : Bool) (cap : Nat) (st : GameSt) (m : MoveRec) :
    commentStep ft cap st m = none
    ∨ (∃ v, commentStep ft cap st m = some (v, st.writer, st.gameId))
    ∨ (st.writer = none
        ∧ ∃ v, commentStep ft cap st m = some (v, some (st.gameId / cap), st.gameId + 1)) := by
  by_cases hc : m.comment = []
  · by_cases hft : ft
    · left; simp [commentStep, hc, hft]
    · right; left; exact ⟨0, by simp [commentStep, hc, hft]⟩
  · rcases hf : (if m.isMate then some (if st.black then (-128 : ℚ) else 128)
        else extract_fishtest_comment_score m.comment) with _ | v
    · left; simp [commentStep, hc, hf]
    · rcases hw : st.writer with _ | p
      · right; right
        exact ⟨rfl, v, by simp [commentStep, hc, hf, hw]⟩
      · right; left
        exact ⟨v, by simp [commentStep, hc, hf, hw]⟩

/-- The record-emission section stores exactly the writer and game id it was
handed. -/
theorem emitStep_writer (st : GameSt) (m : MoveRec) (v : ℚ) (w : Option Nat) (gid : Nat) :
    (emitStep st m v w gid).writer = w ∧ (emitStep st m v w gid).gameId = gid := by
  by_cases hb : isBadNag m.nag
  · simp [emitStep, hb]
  · rcases w with _ | p <;> simp [emitStep, hb]

/-- One loop iteration either leaves the writer and game id unchanged or, when
the writer was null, creates it on partition `gameId / cap` and bumps the id. -/
theorem process_one_move_writer (ft : Bool) (cap : Nat) (st : GameSt) (m : MoveRec) :
    ((process_one_move ft cap st m).writer = st.writer
      ∧ (process_one_move ft cap st m).gameId = st.gameId)
    ∨ (st.writer = none
      ∧ (process_one_move ft cap st m).writer = some (st.gameId / cap)
      ∧ (process_one_move ft cap st m).gameId = st.gameId + 1) := by
  by_cases h1 : st.crashed || st.stopped
  · left; simp [process_one_move, h1]
  · by_cases h2 : m.legal
    · rcases commentStep_writer ft cap st m with h | ⟨v, h⟩ | ⟨hw, v, h⟩
      · left; simp [process_one_move, h1, h2, h]
      · left
        simp only [process_one_move, h1, h2, h, Bool.not_true, Bool.false_eq_true, if_false]
        exact emitStep_writer st m v st.writer st.gameId
      · right
        refine ⟨hw, ?_⟩
        simp only [process_one_move, h1, h2, h, Bool.not_true, Bool.false_eq_true, if_false]
        exact emitStep_writer st m v (some (st.gameId / cap)) (st.gameId + 1)
    · left
      simp only [Bool.not_eq_true] at h2
      simp [process_one_move, h1, h2]

/-- The writer invariant is preserved by folding the move loop. -/
theorem foldl_winv (ft : Bool) (cap c : Nat) :
    ∀ (moves : List MoveRec) (st : GameSt), WInv cap c st →
      WInv cap c (moves.foldl (process_one_move ft cap) st)
  | [], _, h => h
  | m :: ms, st, h => by
    refine foldl_winv ft cap c ms (process_one_move ft cap st m) ?_
    rcases process_one_move_writer ft cap st m with ⟨hw, hg⟩ | ⟨hw0, hw, hg⟩
    · rcases h with ⟨h1, h2⟩ | ⟨h1, h2⟩
      · exact Or.inl ⟨hw.trans h1, hg.trans h2⟩
      · exact Or.inr ⟨hw.trans h1, hg.trans h2⟩
    · rcases h with ⟨h1, h2⟩ | ⟨h1, h2⟩
      · exact Or.inr ⟨h2 ▸ hw, by rw [hg, h2]⟩
      · rw [h1] at hw0; exact absurd hw0 (by simp)

/-- A processed game either never created a writer (id unchanged) or created
it exactly once, on partition `c / cap` where `c` was the incoming game id. -/
theorem game_winv (ft : Bool) (cap c : Nat) (blackFirst : Bool) (moves : List MoveRec) :
    WInv cap c (write_one_game_training_data ft cap c blackFirst moves) :=
  foldl_winv ft cap c moves (initSt c blackFirst) (Or.inl ⟨rfl, rfl⟩)

/-- The partitions assigned by the game loop starting from counter `c` are the
consecutive values `c / cap, (c+1) / cap, ...`. -/
theorem main_partitions_range (ft : Bool) (cap maxGames : Nat) :
    ∀ (games : List Game) (c : Nat), ∃ n,
      main_partitions ft cap maxGames games c = (List.range' c n).map (· / cap)
  | [], _ => ⟨0, by simp [main_partitions]⟩
  | g :: gs, c => by
    by_cases hmax : maxGames ≤ c
    · exact ⟨0, by simp [main_partitions, hmax]⟩
    · rcases game_winv ft cap c g.blackFirst g.moves with ⟨hw, _⟩ | ⟨hw, _⟩
      · by_cases hcrash : (write_one_game_training_data ft cap c g.blackFirst g.moves).crashed
        · exact ⟨0, by simp [main_partitions, hmax, hw, hcrash]⟩
        · obtain ⟨n, ih⟩ := main_partitions_range ft cap maxGames gs c
          refine ⟨n, ?_⟩
          simp [main_partitions, hmax, hw, hcrash, ih]
      · by_cases hcrash : (write_one_game_training_data ft cap c g.blackFirst g.moves).crashed
        · refine ⟨1, ?_⟩
          simp [main_partitions, hmax, hw, hcrash, List.range']
        · obtain ⟨n, ih⟩ := main_partitions_range ft cap maxGames gs (c + 1)
          refine ⟨n + 1, ?_⟩
          simp [main_partitions, hmax, hw, hcrash, ih, List.range']

/-! ## Helper lemmas for the score-extractor characterisation -/

/-- If every element of `ds` satisfies `p` and `c` does not, the take/drop pair
of the concatenation splits exactly at the boundary. -/
theorem takeWhile_append_cons (p : Char → Bool) :
    ∀ (ds : List Char) (c : Char) (tl : List Char), (∀ x ∈ ds, p x = true) → p c = false →
      ((ds ++ c :: tl).takeWhile p = ds ∧ (ds ++ c :: tl).dropWhile p = c :: tl)
  | [], c, tl, _, hc => by simp [List.takeWhile, List.dropWhile, hc]
  | d :: ds, c, tl, hall, hc => by
    have hd : p d = true := hall d (by simp)
    have ih := takeWhile_append_cons p ds c tl (fun x hx => hall x (by simp [hx])) hc
    simp [List.takeWhile, List.dropWhile, hd, ih.1, ih.2]

theorem mem_takeWhile_sat (p : Char → Bool) :
    ∀ (l : List Char), ∀ x ∈ l.takeWhile p, p x = true
  | [], x, hx => by simp [List.takeWhile] at hx
  | c :: cs, x, hx => by
    by_cases hc : p c
    · simp [List.takeWhile, hc] at hx
      rcases hx with hx | hx
      · exact hx ▸ hc
      · exact mem_takeWhile_sat p cs x hx
    · simp [List.takeWhile, hc] at hx

theorem takeWhile_append_dropWhile_eq (p : Char → Bool) (l : List Char) :
    l.takeWhile p ++ l.dropWhile p = l := List.takeWhile_append_dropWhile p l

/-- A list whose head satisfies `some c` decomposes as `c :: tail`. -/
theorem eq_cons_of_head_eq (l : List Char) (c : Char) (h : l.head? = some c) :
    l = c :: l.tail := by
  cases l with
  | nil => simp at h
  | cons a as => simp at h; simp [h]

theorem matchFrac_eq_some_iff (neg neg2 : Bool) (ds ds2 r3 fs2 : List Char) :
    matchFrac neg ds r3 = some (neg2, ds2, fs2)
    ↔ (neg2 = neg ∧ ds2 = ds
        ∧ ∃ rest, r3 = fs2 ++ '/' :: rest
        ∧ fs2 ≠ [] ∧ (∀ c ∈ fs2, c.isDigit = true)) := by
  constructor
  · intro h
    simp only [matchFrac] at h
    split at h
    case isTrue hcond =>
      obtain ⟨hne, hhead⟩ := hcond
      simp only [Option.some_inj, Prod.mk.injEq] at h
      obtain ⟨h1, h2, h3⟩ := h
      subst h1
      subst h2
      subst h3
      have hsplit := takeWhile_append_dropWhile_eq Char.isDigit r3
      have hdw := eq_cons_of_head_eq _ _ hhead
      refine ⟨rfl, rfl, (r3.dropWhile Char.isDigit).tail, ?_, hne,
        mem_takeWhile_sat Char.isDigit r3⟩
      rw [hdw] at hsplit
      exact hsplit.symm
    case isFalse => exact absurd h (by simp)
  · rintro ⟨h1, h2, rest, hr3, hne, hdig⟩
    have hsplit := takeWhile_append_cons Char.isDigit fs2 '/' rest hdig (by decide)
    unfold matchFrac
    rw [hr3, hsplit.1, hsplit.2]
    simp [hne, h1, h2]



theorem matchDigitsDot_eq_some_iff (neg neg2 : Bool) (r1 ds2 fs2 : List Char) :
    matchDigitsDot neg r1 = some (neg2, ds2, fs2)
    ↔ (neg2 = neg ∧ ∃ rest, r1 = ds2 ++ '.' :: (fs2 ++ '/' :: rest)
        ∧ ds2 ≠ [] ∧ (∀ c ∈ ds2, c.isDigit = true)
        ∧ fs2 ≠ [] ∧ (∀ c ∈ fs2, c.isDigit = true)) := by
  constructor
  · intro h
    simp only [matchDigitsDot] at h
    split at h
    case isTrue hcond =>
      obtain ⟨hne, hhead⟩ := hcond
      obtain ⟨h1, h2, rest, hr3, hfsne, hfsdig⟩ := (matchFrac_eq_some_iff _ _ _ _ _ _).1 h
      subst h1
      subst h2
      have hsplit := takeWhile_append_dropWhile_eq Char.isDigit r1
      have hdw := eq_cons_of_head_eq _ _ hhead
      refine ⟨rfl, rest, ?_, hne, mem_takeWhile_sat Char.isDigit r1, hfsne, hfsdig⟩
      rw [hdw, hr3] at hsplit
      exact hsplit.symm
    case isFalse => exact absurd h (by simp)
  · rintro ⟨h1, rest, hr1, hdsne, hdsdig, hfsne, hfsdig⟩
    have hsplit := takeWhile_append_cons Char.isDigit ds2 '.' (fs2 ++ '/' :: rest)
      hdsdig (by decide)
    simp only [matchDigitsDot]
    rw [hr1, hsplit.1, hsplit.2]
    simp only [hdsne, ne_eq, not_false_iff, List.head?, Option.some_inj, true_and, List.tail,
      if_pos, and_self, reduceIte]
    exact (matchFrac_eq_some_iff _ _ _ _ _ _).2 ⟨h1, rfl, rest, rfl, hfsne, hfsdig⟩

theorem parseSign_cons (c : Char) (t : List Char) :
    parseSign (c :: t) = if c = '-' then (true, t) else (false, c :: t) := by
  by_cases hc : c = '-'
  · simp [parseSign, hc]
  · simp [parseSign, hc]

theorem matchP1At_cons (c : Char) (t : List Char) :
    matchP1At (c :: t)
      = if c = '{' then matchDigitsDot (parseSign t).1 (parseSign t).2 else none := by
  by_cases hc : c = '{'
  · simp [matchP1At, hc]
  · simp [matchP1At, hc]

theorem matchP1At_nil : matchP1At [] = none := by simp [matchP1At]

theorem matchP1At_eq_some_iff (s : List Char) (neg : Bool) (ds fs : List Char) :
    matchP1At s = some (neg, ds, fs) ↔ atHeadP1 s neg ds fs := by
  constructor
  · intro h
    cases s with
    | nil => rw [matchP1At_nil] at h; exact absurd h (by simp)
    | cons c t =>
      rw [matchP1At_cons] at h
      by_cases hc : c = '{'
      · rw [if_pos hc] at h
        subst hc
        cases t with
        | nil =>
          have hnone : matchDigitsDot (parseSign ([] : List Char)).1
              (parseSign ([] : List Char)).2 = none := by
            simp [parseSign, matchDigitsDot, List.takeWhile]
          rw [hnone] at h
          exact absurd h (by simp)
        | cons c2 t2 =>
          rw [parseSign_cons] at h
          by_cases hc2 : c2 = '-'
          · rw [if_pos hc2] at h
            subst hc2
            dsimp only at h
            obtain ⟨h1, rest, hdec, hdsne, hdsdig, hfsne, hfsdig⟩ :=
              (matchDigitsDot_eq_some_iff _ _ _ _ _).1 h
            subst h1
            refine ⟨rest, ?_, hdsne, hdsdig, hfsne, hfsdig⟩
            rw [hdec]
            simp [signChars]
          · rw [if_neg hc2] at h
            dsimp only at h
            obtain ⟨h1, rest, hdec, hdsne, hdsdig, hfsne, hfsdig⟩ :=
              (matchDigitsDot_eq_some_iff _ _ _ _ _).1 h
            subst h1
            refine ⟨rest, ?_, hdsne, hdsdig, hfsne, hfsdig⟩
            rw [hdec]
            simp [signChars]
      · rw [if_neg hc] at h
        exact absurd h (by simp)
  · rintro ⟨rest, hsdec, hdsne, hdsdig, hfsne, hfsdig⟩
    cases neg
    · obtain ⟨d, ds2, hds⟩ := List.exists_cons_of_ne_nil hdsne
      have hddig : d.isDigit = true := hdsdig d (by simp [hds])
      have hdnm : ¬ d = '-' := fun hc => absurd (hc ▸ hddig) (by decide)
      simp only [signChars, Bool.false_eq_true, if_false, List.nil_append, reduceIte] at hsdec
      rw [hds] at hsdec
      subst hsdec
      rw [matchP1At_cons, if_pos rfl, List.cons_append, parseSign_cons, if_neg hdnm]
      dsimp only
      refine (matchDigitsDot_eq_some_iff _ _ _ _ _).2 ⟨rfl, rest, ?_, hdsne, hdsdig, hfsne, hfsdig⟩
      rw [hds]
      simp
    · simp only [signChars, reduceIte] at hsdec
      subst hsdec
      simp only [List.cons_append, List.nil_append]
      rw [matchP1At_cons, if_pos rfl, parseSign_cons, if_pos rfl]
      dsimp only
      exact (matchDigitsDot_eq_some_iff _ _ _ _ _).2 ⟨rfl, rest, rfl, hdsne, hdsdig, hfsne, hfsdig⟩

theorem matchP2Digits_eq_some_iff (neg neg2 : Bool) (r1 ds2 : List Char) :
    matchP2Digits neg r1 = some (neg2, ds2)
    ↔ (neg2 = neg ∧ ∃ rest, r1 = ds2 ++ '/' :: rest
        ∧ ds2 ≠ [] ∧ (∀ c ∈ ds2, c.isDigit = true)) := by
  constructor
  · intro h
    simp only [matchP2Digits] at h
    split at h
    case isTrue hcond =>
      obtain ⟨hne, hhead⟩ := hcond
      simp only [Option.some_inj, Prod.mk.injEq] at h
      obtain ⟨h1, h2⟩ := h
      subst h1
      subst h2
      have hsplit := takeWhile_append_dropWhile_eq Char.isDigit r1
      have hdw := eq_cons_of_head_eq _ _ hhead
      refine ⟨rfl, (r1.dropWhile Char.isDigit).tail, ?_, hne,
        mem_takeWhile_sat Char.isDigit r1⟩
      rw [hdw] at hsplit
      exact hsplit.symm
    case isFalse => exact absurd h (by simp)
  · rintro ⟨h1, rest, hr1, hne, hdig⟩
    have hsplit := takeWhile_append_cons Char.isDigit ds2 '/' rest hdig (by decide)
    simp only [matchP2Digits]
    rw [hr1, hsplit.1, hsplit.2]
    simp [hne, h1]

theorem matchP2At_nil : matchP2At [] = none := by simp [matchP2At]

theorem matchP2At_one (c : Char) : matchP2At [c] = none := by simp [matchP2At]

theorem matchP2At_cons2 (c1 c2 : Char) (t : List Char) :
    matchP2At (c1 :: c2 :: t)
      = if c1 = '{' ∧ c2 = '#' then matchP2Digits (parseSign t).1 (parseSign t).2
        else none := by
  by_cases h1 : c1 = '{' <;> by_cases h2 : c2 = '#' <;> simp [matchP2At, h1, h2]

theorem matchP2At_eq_some_iff (s : List Char) (neg : Bool) (ds : List Char) :
    matchP2At s = some (neg, ds) ↔ atHeadP2 s neg ds := by
  constructor
  · intro h
    match s with
    | [] => rw [matchP2At_nil] at h; exact absurd h (by simp)
    | [c] => rw [matchP2At_one] at h; exact absurd h (by simp)
    | c1 :: c2 :: t =>
      rw [matchP2At_cons2] at h
      by_cases hc : c1 = '{' ∧ c2 = '#'
      · rw [if_pos hc] at h
        obtain ⟨hc1, hc2⟩ := hc
        subst hc1
        subst hc2
        cases t with
        | nil =>
          have hnone : matchP2Digits (parseSign ([] : List Char)).1
              (parseSign ([] : List Char)).2 = none := by
            simp [parseSign, matchP2Digits, List.takeWhile]
          rw [hnone] at h
          exact absurd h (by simp)
        | cons c3 t3 =>
          rw [parseSign_cons] at h
          by_cases hc3 : c3 = '-'
          · rw [if_pos hc3] at h
            subst hc3
            dsimp only at h
            obtain ⟨h1, rest, hdec, hne, hdig⟩ := (matchP2Digits_eq_some_iff _ _ _ _).1 h
            subst h1
            refine ⟨rest, ?_, hne, hdig⟩
            rw [hdec]
            simp [signChars]
          · rw [if_neg hc3] at h
            dsimp only at h
            obtain ⟨h1, rest, hdec, hne, hdig⟩ := (matchP2Digits_eq_some_iff _ _ _ _).1 h
            subst h1
            refine ⟨rest, ?_, hne, hdig⟩
            rw [hdec]
            simp [signChars]
      · rw [if_neg hc] at h
        exact absurd h (by simp)
  · rintro ⟨rest, hsdec, hne, hdig⟩
    cases neg
    · obtain ⟨d, ds2, hds⟩ := List.exists_cons_of_ne_nil hne
      have hddig : d.isDigit = true := hdig d (by simp [hds])
      have hdnm : ¬ d = '-' := fun hc => absurd (hc ▸ hddig) (by decide)
      simp only [signChars, Bool.false_eq_true, reduceIte, List.nil_append] at hsdec
      rw [hds] at hsdec
      subst hsdec
      rw [matchP2At_cons2, if_pos ⟨rfl, rfl⟩, List.cons_append, parseSign_cons, if_neg hdnm]
      dsimp only
      refine (matchP2Digits_eq_some_iff _ _ _ _).2 ⟨rfl, rest, ?_, hne, hdig⟩
      rw [hds]
      simp
    · simp only [signChars, reduceIte] at hsdec
      subst hsdec
      simp only [List.cons_append, List.nil_append]
      rw [matchP2At_cons2, if_pos ⟨rfl, rfl⟩, parseSign_cons, if_pos rfl]
      dsimp only
      exact (matchP2Digits_eq_some_iff _ _ _ _).2 ⟨rfl, rest, rfl, hne, hdig⟩

theorem searchFirst_eq_none_iff {α : Type} (f : List Char → Option α) :
    ∀ s : List Char, searchFirst f s = none
      ↔ ∀ pre suf : List Char, s = pre ++ suf → f suf = none
  | [] => by
    simp only [searchFirst]
    constructor
    · intro h pre suf hsplit
      have h2 := hsplit.symm
      rw [List.append_eq_nil] at h2
      rw [h2.2]
      exact h
    · intro h
      exact h [] [] rfl
  | c :: cs => by
    constructor
    · intro h pre suf hsplit
      have hf : f (c :: cs) = none ∧ searchFirst f cs = none := by
        simp only [searchFirst] at h
        rcases hfc : f (c :: cs) with _ | r
        · rw [hfc] at h; exact ⟨rfl, h⟩
        · rw [hfc] at h; exact absurd h (by simp)
      cases pre with
      | nil =>
        simp only [List.nil_append] at hsplit
        rw [← hsplit]
        exact hf.1
      | cons p pre2 =>
        have hcs : cs = pre2 ++ suf := by
          simp only [List.cons_append, List.cons.injEq] at hsplit
          exact hsplit.2
        exact (searchFirst_eq_none_iff f cs).1 hf.2 pre2 suf hcs
    · intro h
      have hfc : f (c :: cs) = none := h [] (c :: cs) rfl
      simp only [searchFirst, hfc]
      exact (searchFirst_eq_none_iff f cs).2
        (fun pre suf hsplit => h (c :: pre) suf (by rw [hsplit]; rfl))

theorem searchFirst_eq_some_exists {α : Type} (f : List Char → Option α) :
    ∀ (s : List Char) (r : α), searchFirst f s = some r →
      ∃ pre suf, s = pre ++ suf ∧ f suf = some r
  | [], r => fun h => ⟨[], [], rfl, h⟩
  | c :: cs, r => fun h => by
    rcases hfc : f (c :: cs) with _ | r2
    · simp only [searchFirst, hfc] at h
      obtain ⟨pre, suf, hsplit, hf⟩ := searchFirst_eq_some_exists f cs r h
      exact ⟨c :: pre, suf, by rw [hsplit]; rfl, hf⟩
    · simp only [searchFirst, hfc, Option.some_inj] at h
      exact ⟨[], c :: cs, rfl, by rw [hfc, h]⟩

theorem searchP1_none_iff (s : List Char) :
    searchFirst matchP1At s = none ↔ ¬ strHasP1 s := by
  rw [searchFirst_eq_none_iff]
  constructor
  · rintro h ⟨neg, ds, fs, pre, suf, hsplit, hat⟩
    have hn := h pre suf hsplit
    rw [(matchP1At_eq_some_iff suf neg ds fs).2 hat] at hn
    exact absurd hn (by simp)
  · intro h pre suf hsplit
    rcases hm : matchP1At suf with _ | ⟨neg, ds, fs⟩
    · rfl
    · exact absurd ⟨neg, ds, fs, pre, suf, hsplit,
        (matchP1At_eq_some_iff suf neg ds fs).1 hm⟩ h

theorem searchP2_none_iff (s : List Char) :
    searchFirst matchP2At s = none ↔ ¬ strHasP2 s := by
  rw [searchFirst_eq_none_iff]
  constructor
  · rintro h ⟨neg, ds, pre, suf, hsplit, hat⟩
    have hn := h pre suf hsplit
    rw [(matchP2At_eq_some_iff suf neg ds).2 hat] at hn
    exact absurd hn (by simp)
  · intro h pre suf hsplit
    rcases hm : matchP2At suf with _ | ⟨neg, ds⟩
    · rfl
    · exact absurd ⟨neg, ds, pre, suf, hsplit,
        (matchP2At_eq_some_iff suf neg ds).1 hm⟩ h

theorem searchP1_some_occurs (s : List Char) (neg : Bool) (ds fs : List Char)
    (h : searchFirst matchP1At s = some (neg, ds, fs)) : occursP1 s neg ds fs := by
  obtain ⟨pre, suf, hsplit, hf⟩ := searchFirst_eq_some_exists matchP1At s (neg, ds, fs) h
  exact ⟨pre, suf, hsplit, (matchP1At_eq_some_iff suf neg ds fs).1 hf⟩

theorem searchP2_some_occurs (s : List Char) (neg : Bool) (ds : List Char)
    (h : searchFirst matchP2At s = some (neg, ds)) : occursP2 s neg ds := by
  obtain ⟨pre, suf, hsplit, hf⟩ := searchFirst_eq_some_exists matchP2At s (neg, ds) h
  exact ⟨pre, suf, hsplit, (matchP2At_eq_some_iff suf neg ds).1 hf⟩

/-! ## Claim theorems -/

/-- **C1** (code_bug evidence).  In `get_v4_training_data` the played move's
index holds the bit pattern of `1.0f` and a legal unplayed move's index holds
`0.0f`, but an index outside the legal-move set holds the `memset` byte-fill
pattern `0xFFFFFFFF`, which is a NaN and is **not** the bit pattern of `-1.0f`
(`0xBF800000`): the claim's (and the source comment's) "-1 probability for
illegal moves" does not hold of the stored floats.  Evaluated at a concrete
position with legal moves at nn indices 5 and 3, played index 5, free index 7. -/
theorem C1_memset_fills_illegal_with_nan :
    (get_v4_training_data (fun mv => mv.toFile) GameResult.draw
        ⟨false, true, true, true, true, 0⟩ []
        ⟨0, 0, 0, 5, Promotion.nopromo, false⟩
        [⟨0, 0, 0, 5, Promotion.nopromo, false⟩, ⟨0, 0, 0, 3, Promotion.nopromo, false⟩]
        0).probabilities 5 = bitsFloatOne
    ∧ (get_v4_training_data (fun mv => mv.toFile) GameResult.draw
        ⟨false, true, true, true, true, 0⟩ []
        ⟨0, 0, 0, 5, Promotion.nopromo, false⟩
        [⟨0, 0, 0, 5, Promotion.nopromo, false⟩, ⟨0, 0, 0, 3, Promotion.nopromo, false⟩]
        0).probabilities 3 = bitsFloatZero
    ∧ (get_v4_training_data (fun mv => mv.toFile) GameResult.draw
        ⟨false, true, true, true, true, 0⟩ []
        ⟨0, 0, 0, 5, Promotion.nopromo, false⟩
        [⟨0, 0, 0, 5, Promotion.nopromo, false⟩, ⟨0, 0, 0, 3, Promotion.nopromo, false⟩]
        0).probabilities 7 = memsetFF32
    ∧ memsetFF32 ≠ bitsFloatNegOne
    ∧ isNaN32 memsetFF32 := by
  refine ⟨by decide, by decide, by decide, by decide, by decide, by decide⟩

/-- **C4** (confirmed).  The outcome converter is
`outcome(score) = 2 / (1 + e^(-0.4·score)) - 1`; for every evaluation `e` it
lands in the open interval `(-1, 1)`, maps `0` to `0`, and is odd. -/
theorem C4_outcome_properties (e : ℝ) :
    convert_sf_score_to_win_probability e ∈ Set.Ioo (-1 : ℝ) 1
    ∧ convert_sf_score_to_win_probability 0 = 0
    ∧ convert_sf_score_to_win_probability (-e) =
        -convert_sf_score_to_win_probability e := by
  have hE : 0 < Real.exp (-0.4 * e) := Real.exp_pos _
  have hd : (0 : ℝ) < 1 + Real.exp (-0.4 * e) := by linarith
  refine ⟨⟨?_, ?_⟩, ?_, ?_⟩
  · have h2 : 0 < 2 / (1 + Real.exp (-0.4 * e)) := by positivity
    unfold convert_sf_score_to_win_probability
    linarith
  · have h2 : 2 / (1 + Real.exp (-0.4 * e)) < 2 := by
      rw [div_lt_iff₀ hd]
      nlinarith
    unfold convert_sf_score_to_win_probability
    linarith
  · unfold convert_sf_score_to_win_probability
    norm_num
  · unfold convert_sf_score_to_win_probability
    have harg : (-0.4 : ℝ) * -e = -(-0.4 * e) := by ring
    rw [harg, Real.exp_neg]
    have hE0 : Real.exp (-0.4 * e) ≠ 0 := ne_of_gt hE
    have h1 : (1 : ℝ) + (Real.exp (-0.4 * e))⁻¹ ≠ 0 := by positivity
    have h2 : (1 : ℝ) + Real.exp (-0.4 * e) ≠ 0 := ne_of_gt hd
    field_simp
    ring

/-- **C8** (confirmed).  The emitted record's `result` is `+1` when the final
result favors the side to move in the stored position, `-1` when it favors the
opponent, `0` for a draw; and the draw-confidence fields `root_d`/`best_d` are
`0` for every decisive result and `1` for a draw. -/
theorem C8_result_perspective (nnIndex : LMove → Nat) (gr : GameResult)
    (pos : Position) (planeMasks : List Nat) (played : LMove)
    (legal : List LMove) (q : ℚ) :
    (get_v4_training_data nnIndex gr pos planeMasks played legal q).result
      = (if gr = GameResult.draw then 0
         else if favorsSideToMove gr pos.isBlackToMove then 1 else -1)
    ∧ (get_v4_training_data nnIndex gr pos planeMasks played legal q).root_d
      = (if gr = GameResult.draw then 1 else 0)
    ∧ (get_v4_training_data nnIndex gr pos planeMasks played legal q).best_d
      = (if gr = GameResult.draw then 1 else 0) := by
  cases gr <;> cases h : pos.isBlackToMove <;>
    simp [get_v4_training_data, favorsSideToMove, h]

/-- **C9** (counterexample).  For a black castling move from square (rank 7,
file 4) to (rank 7, file 7) — the spec's non-standard-rook-placement case —
translating and then mirroring the canonical squares back yields destination
file 6, not the original file 7: the round trip does not reproduce the
original to-square, because castling normalisation rewrites the file before
mirroring. -/
theorem C9_counterexample :
    (mirrorMove (poly_move_to_lc0_move ⟨7, 4, 7, 7, false, 0, true⟩ true)).fromRank = 7
    ∧ (mirrorMove (poly_move_to_lc0_move ⟨7, 4, 7, 7, false, 0, true⟩ true)).fromFile = 4
    ∧ (mirrorMove (poly_move_to_lc0_move ⟨7, 4, 7, 7, false, 0, true⟩ true)).toRank = 7
    ∧ (mirrorMove (poly_move_to_lc0_move ⟨7, 4, 7, 7, false, 0, true⟩ true)).toFile = 6
    ∧ (6 : Nat) ≠ 7 := by
  refine ⟨by decide, by decide, by decide, by decide, by decide⟩

/-- **C9** (amended).  For every move made by the second player that is not
classified as castling (on-board ranks), translating it to canonical form and
mirroring the resulting canonical squares back reproduces the original from-
and to-squares; for castling moves the destination file is normalised to 6 or
2 before mirroring, so only the remaining three coordinates round-trip. -/
theorem C9_mirror_roundtrip_noncastle (pm : PolyMove)
    (hfr : pm.fromRank < 8) (htr : pm.toRank < 8) (hc : pm.isCastle = false) :
    (mirrorMove (poly_move_to_lc0_move pm true)).fromRank = pm.fromRank
    ∧ (mirrorMove (poly_move_to_lc0_move pm true)).fromFile = pm.fromFile
    ∧ (mirrorMove (poly_move_to_lc0_move pm true)).toRank = pm.toRank
    ∧ (mirrorMove (poly_move_to_lc0_move pm true)).toFile = pm.toFile := by
  by_cases hp : pm.isPromote
  <;> simp [poly_move_to_lc0_move, mirrorMove, hp, hc]
  <;> omega

/-- **C9** (witness).  The round trip evaluated on the concrete non-castling
black move from (6,4) to (4,4). -/
theorem C9_witness :
    (mirrorMove (poly_move_to_lc0_move ⟨6, 4, 4, 4, false, 0, false⟩ true)).fromRank = 6
    ∧ (mirrorMove (poly_move_to_lc0_move ⟨6, 4, 4, 4, false, 0, false⟩ true)).fromFile = 4
    ∧ (mirrorMove (poly_move_to_lc0_move ⟨6, 4, 4, 4, false, 0, false⟩ true)).toRank = 4
    ∧ (mirrorMove (poly_move_to_lc0_move ⟨6, 4, 4, 4, false, 0, false⟩ true)).toFile = 4 :=
  C9_mirror_roundtrip_noncastle ⟨6, 4, 4, 4, false, 0, false⟩
    (by decide) (by decide) (by decide)

/-- **C2** (counterexample).  Outside fishtest mode, a game whose first move
carries a parseable comment and whose second move carries no comment produces
**two** records: the comment-less move is converted into a record (with the
default evaluation 0) instead of being skipped as the claim states. -/
theorem C2_counterexample :
    ((write_one_game_training_data false 10000 0 false
        [mkMove cmtOne [] false, mkMove [] [] false]).records).length = 2
    ∧ (((write_one_game_training_data false 10000 0 false
        [mkMove cmtOne [] false, mkMove [] [] false]).records).map TrainRec.eval).get? 1
      = some 0 :=
  ⟨by decide, by decide⟩

/-- **C2** (amended).  Outside fishtest mode a move with no comment does not
stop the game, but it **is** converted into a training record with evaluation
`0` whenever it is not NAG-filtered and a writer already exists; a NAG-filtered
move appends no record; and a retained comment-less move with no writer yet
created dereferences the null writer. -/
theorem C2_no_comment_move_recorded (cap : Nat) (st : GameSt) (m : MoveRec)
    (hcr : st.crashed = false) (hst : st.stopped = false) (hleg : m.legal = true)
    (hcmt : m.comment = []) :
    (process_one_move false cap st m).stopped = false
    ∧ (isBadNag m.nag = false → ∀ p, st.writer = some p →
        (process_one_move false cap st m).records
          = st.records ++ [⟨poly_move_to_lc0_move m.mv st.black, 0⟩]
        ∧ (process_one_move false cap st m).crashed = false)
    ∧ (isBadNag m.nag = true →
        (process_one_move false cap st m).records = st.records
        ∧ (process_one_move false cap st m).crashed = false)
    ∧ (isBadNag m.nag = false → st.writer = none →
        (process_one_move false cap st m).crashed = true) := by
  have hstep : commentStep false cap st m = some (0, st.writer, st.gameId) := by
    simp [commentStep, hcmt]
  simp only [process_one_move, hcr, hst, hleg, hstep, Bool.or_self, Bool.not_true,
    Bool.false_eq_true, if_false]
  refine ⟨?_, ?_, ?_, ?_⟩
  · by_cases hb : isBadNag m.nag
    · simp [emitStep, hb, hst]
    · rcases hw : st.writer with _ | p
      · simp [emitStep, hb, hw, hst]
      · simp [emitStep, hb, hw, hst]
  · intro hb p hw
    simp [emitStep, hb, hw, hcr]
  · intro hb
    simp [emitStep, hb, hcr]
  · intro hb hw
    simp [emitStep, hb, hw]

/-- **C2** (witness).  The amended claim evaluated on a comment-less legal
move arriving with an already-created writer. -/
theorem C2_witness :
    (process_one_move false 10000 ⟨false, some 0, 1, [], 0, false, false⟩
        (mkMove [] [] false)).records
      = [⟨poly_move_to_lc0_move pmPlain false, 0⟩]
    ∧ (process_one_move false 10000 ⟨false, some 0, 1, [], 0, false, false⟩
        (mkMove [] [] false)).crashed = false := by
  have h := C2_no_comment_move_recorded 10000
    ⟨false, some 0, 1, [], 0, false, false⟩ (mkMove [] [] false) rfl rfl rfl rfl
  simpa using h.2.1 rfl 0 rfl

/-- **C3** (counterexample).  A **white** mating move (with a nonempty comment)
gets evaluation `+128`: the side to move after the mating move (black) would be
losing, so the claim requires a strongly negative evaluation, but the stored
evaluation is positive. -/
theorem C3_counterexample :
    (write_one_game_training_data false 10000 0 false
        [mkMove ['x'] [] true]).records.map TrainRec.eval = [128]
    ∧ ¬ ((128 : ℚ) < 0) :=
  ⟨by decide, by decide⟩

/-- **C3** (amended).  For every move known to deliver checkmate that carries a
nonempty comment, comment parsing is bypassed entirely (the outcome of the
iteration does not depend on the comment text) and the evaluation is the
saturated magnitude 128 with its sign determined by the side to move **before**
the move (the mover): `+128` when white delivers the mate, `-128` when black
does. -/
theorem C3_mate_eval_sign (ft : Bool) (cap : Nat) (st : GameSt) (m : MoveRec)
    (hcr : st.crashed = false) (hst : st.stopped = false) (hleg : m.legal = true)
    (hcmt : m.comment ≠ []) (hmate : m.isMate = true) :
    (process_one_move ft cap st m).stopped = false
    ∧ (process_one_move ft cap st m).crashed = false
    ∧ (isBadNag m.nag = false →
        (process_one_move ft cap st m).records
          = st.records ++ [⟨poly_move_to_lc0_move m.mv st.black,
              if st.black then (-128 : ℚ) else 128⟩])
    ∧ (∀ c2 : List Char, c2 ≠ [] →
        process_one_move ft cap st { m with comment := c2 }
          = process_one_move ft cap st m) := by
  have hstep : ∃ w, w.isSome = true ∧ ∃ gid, ∀ c2 : List Char, c2 ≠ [] →
      commentStep ft cap st { m with comment := c2 }
        = some (if st.black then (-128 : ℚ) else 128, w, gid) := by
    rcases hw : st.writer with _ | p
    · exact ⟨some (st.gameId / cap), rfl, st.gameId + 1,
        fun c2 hc2 => by simp [commentStep, hc2, hmate, hw]⟩
    · exact ⟨some p, rfl, st.gameId,
        fun c2 hc2 => by simp [commentStep, hc2, hmate, hw]⟩
  obtain ⟨w, hwsome, gid, hstep⟩ := hstep
  have hstepm : commentStep ft cap st m
      = some (if st.black then (-128 : ℚ) else 128, w, gid) := by
    have := hstep m.comment hcmt
    simpa using this
  refine ⟨?_, ?_, ?_, ?_⟩
  · simp only [process_one_move, hcr, hst, hleg, hstepm, Bool.or_self, Bool.not_true,
      Bool.false_eq_true, if_false]
    by_cases hb : isBadNag m.nag
    · simp [emitStep, hb, hst]
    · rcases w with _ | p
      · simp at hwsome
      · simp [emitStep, hb, hst]
  · simp only [process_one_move, hcr, hst, hleg, hstepm, Bool.or_self, Bool.not_true,
      Bool.false_eq_true, if_false]
    by_cases hb : isBadNag m.nag
    · simp [emitStep, hb, hcr]
    · rcases w with _ | p
      · simp at hwsome
      · simp [emitStep, hb, hcr]
  · intro hb
    simp only [process_one_move, hcr, hst, hleg, hstepm, Bool.or_self, Bool.not_true,
      Bool.false_eq_true, if_false]
    rcases w with _ | p
    · simp at hwsome
    · simp [emitStep, hb]
  · intro c2 hc2
    have h2 := hstep c2 hc2
    simp only [hleg] at h2
    simp only [process_one_move, hcr, hst, hleg, hstepm, h2, Bool.or_self, Bool.not_true,
      Bool.false_eq_true, if_false]
    simp [emitStep]

/-- **C3** (witness).  The amended claim evaluated on a white mating move with
the junk comment `"x"`, and bypass checked against the different junk comment
`"{999"`. -/
theorem C3_witness :
    (process_one_move false 10000 (initSt 0 false) (mkMove ['x'] [] true)).records
      = [⟨poly_move_to_lc0_move pmPlain false, 128⟩]
    ∧ process_one_move false 10000 (initSt 0 false) (mkMove ['{', '9', '9', '9'] [] true)
      = process_one_move false 10000 (initSt 0 false) (mkMove ['x'] [] true) := by
  have h := C3_mate_eval_sign false 10000 (initSt 0 false) (mkMove ['x'] [] true)
    rfl rfl rfl (by decide) rfl
  exact ⟨by simpa using h.2.2.1 rfl, h.2.2.2 ['{', '9', '9', '9'] (by decide)⟩

/-- **C6** (counterexample).  With capacity 1, a game whose only move carries a
parseable comment but the "poor move" NAG `2` produces **zero** records, yet it
creates a writer (consuming partition 0) and advances the global game counter:
the following game — the first game that actually produces a record — is
assigned partition 1, not partition 0 as the claim's `N // capacity` for
written games predicts. -/
theorem C6_counterexample :
    (write_one_game_training_data false 1 0 false [mkMove cmtOne ['2'] false]).records = []
    ∧ (write_one_game_training_data false 1 0 false [mkMove cmtOne ['2'] false]).writer
      = some 0
    ∧ main_partitions false 1 100
        [⟨false, [mkMove cmtOne ['2'] false]⟩, ⟨false, [mkMove cmtOne [] false]⟩] 0
      = [0, 1] :=
  ⟨by decide, by decide, by decide⟩

/-- **C6** (amended).  Given the same ordered sequence of games and the same
per-directory capacity, the partition index assigned to the Nth
**writer-creating** game is `N / capacity`, independent of how many games were
skipped before it: the list of assigned partitions is exactly
`[0/cap, 1/cap, ...]`.  A game that creates no writer does not advance the
global game counter, but a game can create a writer — and advance the counter —
while producing zero records (all of its commented moves NAG-filtered). -/
theorem C6_partition_of_nth_writer (ft : Bool) (cap maxGames : Nat)
    (games : List Game) :
    main_partitions ft cap maxGames games 0
      = (List.range (main_partitions ft cap maxGames games 0).length).map (· / cap) := by
  obtain ⟨n, h⟩ := main_partitions_range ft cap maxGames games 0
  rw [h]
  simp [List.range_eq_range']

/-- **C7** (confirmed).  When the translated played move is not found in the
legal-move set — where being found requires the squares and promotion to agree
**and** the castling classification to match — the iteration emits one
`Move not found` diagnostic, does not abort processing (no `break`, no crash),
and still emits the training record built from the move as translated (the
move being retained and the evaluation resolvable, with a writer available on
the no-comment path). -/
theorem C7_not_found_nonfatal (ft : Bool) (cap : Nat) (st : GameSt) (m : MoveRec)
    (hcr : st.crashed = false) (hst : st.stopped = false) (hleg : m.legal = true)
    (hbad : isBadNag m.nag = false)
    (hres : (m.comment ≠ [] ∧ (m.isMate = true
              ∨ (extract_fishtest_comment_score m.comment).isSome = true))
          ∨ (m.comment = [] ∧ ft = false ∧ st.writer.isSome = true))
    (hnf : ∀ l ∈ m.legalMoves,
        ¬(l.fromRank = (poly_move_to_lc0_move m.mv st.black).fromRank
          ∧ l.fromFile = (poly_move_to_lc0_move m.mv st.black).fromFile
          ∧ l.toRank = (poly_move_to_lc0_move m.mv st.black).toRank
          ∧ l.toFile = (poly_move_to_lc0_move m.mv st.black).toFile
          ∧ l.promo = (poly_move_to_lc0_move m.mv st.black).promo
          ∧ l.castling = (poly_move_to_lc0_move m.mv st.black).castling)) :
    (process_one_move ft cap st m).notFound = st.notFound + 1
    ∧ (process_one_move ft cap st m).stopped = false
    ∧ (process_one_move ft cap st m).crashed = false
    ∧ ∃ q, (process_one_move ft cap st m).records
        = st.records ++ [⟨poly_move_to_lc0_move m.mv st.black, q⟩] := by
  have hfound : ¬ ∃ l ∈ m.legalMoves,
      moveEqNC l (poly_move_to_lc0_move m.mv st.black) = true
      ∧ l.castling = (poly_move_to_lc0_move m.mv st.black).castling := by
    rintro ⟨l, hl, heq, hcst⟩
    simp only [moveEqNC, decide_eq_true_eq] at heq
    exact hnf l hl ⟨heq.1, heq.2.1, heq.2.2.1, heq.2.2.2.1, heq.2.2.2.2, hcst⟩
  have hstep : ∃ v w gid, commentStep ft cap st m = some (v, w, gid) ∧ w.isSome = true := by
    rcases hres with ⟨hc, hm⟩ | ⟨hc, hft, hw⟩
    · rcases hm with hm | hm
      · rcases hw : st.writer with _ | p
        · exact ⟨if st.black then (-128 : ℚ) else 128, some (st.gameId / cap),
            st.gameId + 1, by simp [commentStep, hc, hm, hw], rfl⟩
        · exact ⟨if st.black then (-128 : ℚ) else 128, some p, st.gameId,
            by simp [commentStep, hc, hm, hw], rfl⟩
      · rcases hq : extract_fishtest_comment_score m.comment with _ | q
        · rw [hq] at hm; simp at hm
        · by_cases hmate : m.isMate
          · rcases hw : st.writer with _ | p
            · exact ⟨if st.black then (-128 : ℚ) else 128, some (st.gameId / cap),
                st.gameId + 1, by simp [commentStep, hc, hmate, hw], rfl⟩
            · exact ⟨if st.black then (-128 : ℚ) else 128, some p, st.gameId,
                by simp [commentStep, hc, hmate, hw], rfl⟩
          · rcases hw : st.writer with _ | p
            · exact ⟨q, some (st.gameId / cap), st.gameId + 1,
                by simp [commentStep, hc, hmate, hq, hw], rfl⟩
            · exact ⟨q, some p, st.gameId,
                by simp [commentStep, hc, hmate, hq, hw], rfl⟩
    · refine ⟨0, st.writer, st.gameId, by simp [commentStep, hc, hft], hw⟩
  obtain ⟨v, w, gid, hstep, hwsome⟩ := hstep
  rcases w with _ | p
  · simp at hwsome
  refine ⟨?_, ?_, ?_, ?_⟩
  · simp only [process_one_move, hcr, hst, hleg, hstep, Bool.or_self, Bool.not_true,
      Bool.false_eq_true, if_false]
    simp [emitStep, hbad, hfound]
  · simp only [process_one_move, hcr, hst, hleg, hstep, Bool.or_self, Bool.not_true,
      Bool.false_eq_true, if_false]
    simp [emitStep, hbad, hst]
  · simp only [process_one_move, hcr, hst, hleg, hstep, Bool.or_self, Bool.not_true,
      Bool.false_eq_true, if_false]
    simp [emitStep, hbad, hcr]
  · refine ⟨v, ?_⟩
    simp only [process_one_move, hcr, hst, hleg, hstep, Bool.or_self, Bool.not_true,
      Bool.false_eq_true, if_false]
    simp [emitStep, hbad]

/-- **C7** (witness).  The not-found path evaluated on a white mating move
whose legal-move list is empty, so the translated move is certainly absent. -/
theorem C7_witness :
    (process_one_move false 10000 (initSt 0 false) (mkMove ['x'] [] true)).notFound = 0 + 1
    ∧ (process_one_move false 10000 (initSt 0 false) (mkMove ['x'] [] true)).stopped = false
    ∧ (process_one_move false 10000 (initSt 0 false) (mkMove ['x'] [] true)).crashed = false
    ∧ ∃ q, (process_one_move false 10000 (initSt 0 false) (mkMove ['x'] [] true)).records
        = [] ++ [⟨poly_move_to_lc0_move pmPlain false, q⟩] := by
  have h := C7_not_found_nonfatal false 10000 (initSt 0 false) (mkMove ['x'] [] true)
    rfl rfl rfl rfl (Or.inl ⟨by decide, Or.inl rfl⟩)
    (by intro l hl; simp [mkMove] at hl)
  exact h

/-- **C5** (confirmed).  The extractor returns a numeric evaluation exactly
when the comment contains a decimal score directly following the opening
marker (shape `{-?\\d+.\\d+/`) or a mate-distance marker (shape `{#-?\\d+/`),
and reports no evaluation otherwise.  When the decimal shape occurs the value
is that decimal (the decimal shape takes precedence); when only the mate shape
occurs the value is magnitude 128, negative exactly when the digit string
begins with a minus sign. -/
theorem C5_extractor_characterisation (s : List Char) :
    (extract_fishtest_comment_score s = none ↔ ¬ strHasP1 s ∧ ¬ strHasP2 s)
    ∧ (strHasP1 s → ∃ neg ds fs, occursP1 s neg ds fs
        ∧ extract_fishtest_comment_score s = some (p1val neg ds fs))
    ∧ (¬ strHasP1 s → strHasP2 s → ∃ neg ds, occursP2 s neg ds
        ∧ extract_fishtest_comment_score s = some (if neg then (-128 : ℚ) else 128)) := by
  refine ⟨?_, ?_, ?_⟩
  · rcases h1 : searchFirst matchP1At s with _ | ⟨neg, ds, fs⟩
    · rcases h2 : searchFirst matchP2At s with _ | ⟨neg, ds⟩
      · simp only [extract_fishtest_comment_score, h1, h2]
        exact iff_of_true trivial ⟨(searchP1_none_iff s).1 h1, (searchP2_none_iff s).1 h2⟩
      · simp only [extract_fishtest_comment_score, h1, h2]
        refine iff_of_false (by simp) ?_
        rintro ⟨_, hno2⟩
        exact hno2 ⟨neg, ds, searchP2_some_occurs s neg ds h2⟩
    · simp only [extract_fishtest_comment_score, h1]
      refine iff_of_false (by simp) ?_
      rintro ⟨hno1, _⟩
      exact hno1 ⟨neg, ds, fs, searchP1_some_occurs s neg ds fs h1⟩
  · intro hhas
    rcases h1 : searchFirst matchP1At s with _ | ⟨neg, ds, fs⟩
    · exact absurd hhas ((searchP1_none_iff s).1 h1)
    · exact ⟨neg, ds, fs, searchP1_some_occurs s neg ds fs h1,
        by simp only [extract_fishtest_comment_score, h1]⟩
  · intro hno1 hhas2
    rcases h1 : searchFirst matchP1At s with _ | ⟨neg, ds, fs⟩
    · rcases h2 : searchFirst matchP2At s with _ | ⟨neg, ds⟩
      · exact absurd hhas2 ((searchP2_none_iff s).1 h2)
      · exact ⟨neg, ds, searchP2_some_occurs s neg ds h2,
          by simp only [extract_fishtest_comment_score, h1, h2]⟩
    · exact absurd ⟨neg, ds, fs, searchP1_some_occurs s neg ds fs h1⟩ hno1

/-- **C5** (witness).  The characterisation applied to the concrete comment
`"{1.0/"`, whose decimal-score occurrence is exhibited explicitly. -/
theorem C5_witness :
    ∃ neg ds fs, occursP1 cmtOne neg ds fs
      ∧ extract_fishtest_comment_score cmtOne = some (p1val neg ds fs) :=
  (C5_extractor_characterisation cmtOne).2.1
    ⟨false, ['1'], ['0'], [], cmtOne, rfl, [], by decide⟩

/-- **C10** (code_bug evidence).  In non-fishtest mode, a game whose first move
is legal, not NAG-filtered and carries no comment reaches `WriteChunk` with the
writer still null: the modelled loop records the null-writer dereference, i.e.
the claimed safety property fails. -/
theorem C10_null_writer_deref :
    (write_one_game_training_data false 10000 0 false [mkMove [] [] false]).crashed = true
    ∧ (write_one_game_training_data false 10000 0 false [mkMove [] [] false]).writer = none :=
  ⟨by decide, by decide⟩

end TrainingdataTool
